import Mathlib

/-!
Shallow embedding of the emissions dashboard pipeline
(src/App/emissions_app.py and src/App/snowflake_to_pandas.py).

Numeric cells are modelled as Option Rat, with none standing for a null
(NaN) cell.  Timestamps are modelled as integer instants tagged with a
timezone marker; instants are measured in days since 1970-01-01 for the
calendar bucketing.  Warehouse effects (cursor execution, the PUT file
transfer) are modelled by the list of SQL command strings a call issues,
built with the same format strings as the source.
-/

namespace EmissionsApp

/-- Numeric cell of a frame: none models a null (NaN) entry. -/
abbrev Cell := Option ℚ

/-- Timezone marker carried by an index timestamp. -/
inductive Tz
  | naive
  | utc
  | usPacific
  deriving DecidableEq, Repr

/-- An index timestamp: an absolute instant plus the timezone it is
displayed in.  Timezone conversion keeps the instant and changes the tag. -/
structure Timestamp where
  instant : Int
  tz : Tz
  deriving DecidableEq, Repr

/- ----------------------------------------------------------------
   snowflake_to_pandas.py : the Snowflake class
   ---------------------------------------------------------------- -/

/-- Connection environment read by Snowflake.__init__ from the process
environment. -/
structure SnowflakeEnv where
  user : String
  password : String
  database : String
  warehouse : String
  account : String

/-- A pandas DataFrame as the loader sees it: a named index column, the
index values, the data column names and the data rows (stringly typed, as
they are serialized to CSV). -/
structure PDataFrame where
  indexName : String
  index : List String
  columns : List String
  rows : List (List String)

/-- Model of df.to_csv: the list of records written, header first.  With
index true each record is prefixed by the index value; with index false
only the data columns are written. -/
def to_csv (df : PDataFrame) (index : Bool) : List (List String) :=
  if index then
    (df.indexName :: df.columns) :: (df.index.zip df.rows).map (fun p => p.1 :: p.2)
  else
    df.columns :: df.rows

/-- Command string built by the format string in Snowflake.__to_staging and
Snowflake.__stage_to_table: USE db.schema; -/
def useSchemaCmd (db schema : String) : String :=
  "USE " ++ db ++ "." ++ schema ++ ";"

/-- Command string REMOVE at schema.stage; -/
def removeCmd (schemaStage : String) : String :=
  "REMOVE @" ++ schemaStage ++ ";"

/-- Command string PUT file://tempfile at stage; -/
def putCmd (file stage : String) : String :=
  "PUT file://" ++ file ++ " @" ++ stage ++ ";"

/-- Command string TRUNCATE TABLE IF EXISTS schema.table; -/
def truncateCmd (schemaTable : String) : String :=
  "TRUNCATE TABLE IF EXISTS " ++ schemaTable ++ ";"

/-- Command string COPY INTO schema.table FROM at stage with the CSV file
format options of the source. -/
def copyIntoCmd (schemaTable stage : String) : String :=
  "COPY INTO " ++ schemaTable ++ " FROM @" ++ stage ++
    " FILE_FORMAT = (TYPE = CSV skip_header = 1 EMPTY_FIELD_AS_NULL = TRUE);"

/-- Model of Snowflake.__to_staging: returns the SQL commands executed, in
order, and the CSV records written to the temporary file that is PUT to the
stage.  tempFile stands for the name of the NamedTemporaryFile. -/
def to_staging (env : SnowflakeEnv) (df : PDataFrame) (schema stage : String)
    (incremental : Bool) (tempFile : String) : List String × List (List String) :=
  let schemaStage := schema ++ "." ++ stage
  ([useSchemaCmd env.database schema]
      ++ (if incremental = false then [removeCmd schemaStage] else [])
      ++ [putCmd tempFile stage],
   to_csv df false)

/-- Model of Snowflake.__stage_to_table: the SQL commands executed, in
order. -/
def stage_to_table (env : SnowflakeEnv) (schema stage table : String)
    (incremental : Bool) : List String :=
  let schemaTable := schema ++ "." ++ table
  [useSchemaCmd env.database schema]
    ++ (if incremental = false then [truncateCmd schemaTable] else [])
    ++ [copyIntoCmd schemaTable stage]

/-- Model of Snowflake.to_table: sets stage to the target table name, then
runs the staging step followed by the copy step.  Returns all SQL commands
issued, in order, and the staged CSV records. -/
def to_table (env : SnowflakeEnv) (df : PDataFrame) (schema table : String)
    (incremental : Bool) (tempFile : String) : List String × List (List String) :=
  let stage := table
  let staged := to_staging env df schema stage incremental tempFile
  (staged.1 ++ stage_to_table env schema stage table incremental, staged.2)

/- ----------------------------------------------------------------
   fetch_sql_df (emissions_app.py and snowflake_to_pandas.py)
   ---------------------------------------------------------------- -/

/-- A cursor result: the description metadata, one (name, typeCode) pair
per column with the name in position zero, and the fetched rows. -/
structure QueryResult where
  description : List (String × Int)
  resultRows : List (List String)

/-- Model of fetch_sql_df: executes the query, lower-cases the column
names found in the result metadata, and builds a DataFrame from the rows
with the default integer range index. -/
def fetch_sql_df (exec : String → QueryResult) (sql : String) : PDataFrame :=
  let curr := exec sql
  let cols := curr.description.map (fun c => c.1.toLower)
  { indexName := ""
    index := (List.range curr.resultRows.length).map toString
    columns := cols
    rows := curr.resultRows }

/- ----------------------------------------------------------------
   get_more_data (emissions_app.py): per-bucket overlay traces
   ---------------------------------------------------------------- -/

/-- Cell of column j of each row, none when the row is too short. -/
def colAt (j : Nat) (rows : List (List Cell)) : List Cell :=
  rows.map (fun r => r.getD j none)

/-- A grouped sub-frame handed out by the groupby iteration: its column
names and its numeric cells, rows by columns. -/
structure SubFrame where
  columns : List String
  cells : List (List Cell)

/-- The KeyError exception raised by a failing column selection. -/
inductive KeyError
  | key (name : String)
  deriving DecidableEq

/-- Column selection df[name]: the column values, or a KeyError when the
name is not a column of the frame. -/
def selectColumn (df : SubFrame) (name : String) : Except KeyError (List Cell) :=
  match df.columns.indexOf? name with
  | some j => .ok (colAt j df.cells)
  | none => .error (.key name)

/-- Model of the per-bucket loop of get_more_data: for each group a trace
of the moer_tons_per_mwh column is added to the figure; a KeyError from
the selection is caught and the bucket skipped. -/
def get_more_data_traces (groups : List (Int × SubFrame)) : List (List Cell) :=
  groups.foldl
    (fun fig g =>
      match selectColumn g.2 "moer_tons_per_mwh" with
      | .ok ys => fig ++ [ys]
      | .error _ => fig)
    []

/- ----------------------------------------------------------------
   aggregate_data (emissions_app.py): the Aligner
   ---------------------------------------------------------------- -/

/-- A raw input table to the Aligner: ncols data columns and rows made of
the datetime index value (an instant) plus the data cells.  load_data_1
and load_data_2 give both sources this shape before alignment. -/
structure InTable where
  ncols : Nat
  rows : List (Int × List Cell)

/-- Well-formedness of an input table: every row is ncols cells wide. -/
def InTable.wf (t : InTable) : Prop := ∀ r ∈ t.rows, r.2.length = t.ncols

instance (t : InTable) : Decidable t.wf :=
  inferInstanceAs (Decidable (∀ r ∈ t.rows, r.2.length = t.ncols))

/-- A row of the concatenated frame: the datetime index value and the
cells over the union of the columns of both sources. -/
structure SRow where
  datetime : Int
  cells : List Cell
  deriving DecidableEq, Repr

/-- pd.concat of the two frames: rows of each source keep their own
columns and hold null in the columns of the other source. -/
def concatTables (t1 t2 : InTable) : List SRow :=
  t1.rows.map (fun r => ⟨r.1, r.2 ++ List.replicate t2.ncols none⟩)
    ++ t2.rows.map (fun r => ⟨r.1, List.replicate t1.ncols none ++ r.2⟩)

/-- Comparison on the datetime index used by sort_values. -/
def dtLE (a b : SRow) : Prop := a.datetime ≤ b.datetime

instance : DecidableRel dtLE := fun a b => Int.decLe a.datetime b.datetime

instance : IsTotal SRow dtLE := ⟨fun a b => Int.le_total a.datetime b.datetime⟩

instance : IsTrans SRow dtLE := ⟨fun _ _ _ hab hbc => Int.le_trans hab hbc⟩

/-- df.sort_values by the datetime index. -/
def sort_values (rows : List SRow) : List SRow := List.insertionSort dtLE rows

/-- pd.to_datetime with utc true: every index value is interpreted as a
UTC timestamp. -/
def to_datetime_utc (rows : List SRow) : List (Timestamp × List Cell) :=
  rows.map (fun r => (⟨r.datetime, Tz.utc⟩, r.cells))

/-- index.tz_convert to US Pacific: the instants stay, the zone tag
changes. -/
def tz_convert_pacific (rows : List (Timestamp × List Cell)) : List (Timestamp × List Cell) :=
  rows.map (fun r => (⟨r.1.instant, Tz.usPacific⟩, r.2))

/-- The frame right before the fill pass: concatenated, sorted by the
datetime index and timezone converted. -/
def alignedSorted (t1 t2 : InTable) : List (Timestamp × List Cell) :=
  tz_convert_pacific (to_datetime_utc (sort_values (concatTables t1 t2)))

/-- One fill step: each null cell of a row takes the corresponding cell of
the filled row right below it. -/
def fillRow (r next : List Cell) : List Cell :=
  List.zipWith (fun c d => match c with | some v => some v | none => d) r next

/-- Backward fill of the cell rows, bottom up: every row is filled from
the already filled row below it, so a null picks up the next value in its
column. -/
def bfillRows : List (List Cell) → List (List Cell)
  | [] => []
  | r :: rs =>
    match bfillRows rs with
    | [] => [r]
    | r2 :: rest => fillRow r r2 :: r2 :: rest

/-- df.fillna with method bfill: the index is kept and the cell rows are
backward filled. -/
def fillna_bfill (rows : List (Timestamp × List Cell)) : List (Timestamp × List Cell) :=
  (rows.map Prod.fst).zip (bfillRows (rows.map Prod.snd))

/-- Model of aggregate_data: concatenate the two sources, sort by the
datetime index, interpret it as UTC, convert it to US Pacific, then
backward fill. -/
def aggregate_data (t1 t2 : InTable) : List (Timestamp × List Cell) :=
  fillna_bfill (alignedSorted t1 t2)

/-- First non-null value of a cell list. -/
def firstSome : List Cell → Cell
  | [] => none
  | some v :: _ => some v
  | none :: cs => firstSome cs

/-- Column-level backward fill: every cell becomes the first non-null
value at its own position or below. -/
def bfill : List Cell → List Cell
  | [] => []
  | c :: cs =>
    (match c with
     | some v => some v
     | none => firstSome cs) :: bfill cs

/- ----------------------------------------------------------------
   get_aggregated_data (emissions_app.py): the Aggregator
   ---------------------------------------------------------------- -/

/-- Civil calendar date (year, month, day) of a day count since
1970-01-01, proleptic Gregorian. -/
def civilFromDays (z0 : Int) : Int × Int × Int :=
  let z := z0 + 719468
  let era : Int := Int.fdiv z 146097
  let doe : Int := z - era * 146097
  let yoe : Int := (doe - doe / 1460 + doe / 36524 - doe / 146096) / 365
  let y : Int := yoe + era * 400
  let doy : Int := doe - (365 * yoe + yoe / 4 - yoe / 100)
  let mp : Int := (5 * doy + 2) / 153
  let d : Int := doy - (153 * mp + 2) / 5 + 1
  let m : Int := mp + (if mp < 10 then 3 else -9)
  (y + (if m ≤ 2 then 1 else 0), m, d)

/-- The aggregation frequencies offered by the app: W, M, Y. -/
inductive Freq
  | week
  | month
  | year
  deriving DecidableEq, Repr

/-- Calendar bucket id of a day under the week frequency: weeks end on
Sunday, numbered by their closing Sunday; 1970-01-04, day 3, closes week
zero. -/
def weekIndex (day : Int) : Int := Int.fdiv (day + 3) 7

/-- Calendar bucket id under the month frequency: months counted from
year zero. -/
def monthIndex (day : Int) : Int :=
  let c := civilFromDays day
  12 * c.1 + (c.2.1 - 1)

/-- Calendar bucket id under the year frequency: the civil year. -/
def yearIndex (day : Int) : Int := (civilFromDays day).1

/-- Bucket id of an instant under a Grouper frequency. -/
def bucketOf : Freq → Int → Int
  | .week => weekIndex
  | .month => monthIndex
  | .year => yearIndex

/-- Mean of a cell list, skipping nulls; null when no value remains. -/
def meanCell (cs : List Cell) : Cell :=
  let vs := cs.reduceOption
  if vs.length = 0 then none else some (vs.sum / (vs.length : ℚ))

/-- The consecutive bucket ids from lo to hi. -/
def binRange (lo hi : Int) : List Int :=
  (List.range (hi - lo + 1).toNat).map (fun i : Nat => lo + (i : Int))

/-- The rows of the frame falling in bucket b. -/
def bucketRows (f : Freq) (data : List (Timestamp × List Cell)) (b : Int) :
    List (Timestamp × List Cell) :=
  data.filter (fun r => bucketOf f r.1.instant = b)

/-- data.groupby with a Grouper frequency followed by mean: the resample
binner spans every bucket from the bucket of the smallest index value to
the bucket of the largest, one output row per bucket; each row holds the
per-column mean over the bucket members, nulls skipped, and a bucket with
no members yields null means. -/
def groupby_mean (f : Freq) (ncols : Nat) (data : List (Timestamp × List Cell)) :
    List (Int × List Cell) :=
  match (data.map (fun r => r.1.instant)).min?, (data.map (fun r => r.1.instant)).max? with
  | some tmin, some tmax =>
    (binRange (bucketOf f tmin) (bucketOf f tmax)).map (fun b =>
      (b, (List.range ncols).map (fun j =>
            meanCell (colAt j ((bucketRows f data b).map Prod.snd)))))
  | _, _ => []

/-- Null-propagating subtraction of two aggregated cells. -/
def subCell : Cell → Cell → Cell
  | some a, some b => some (a - b)
  | _, _ => none

/-- Model of get_aggregated_data: the groupby mean per calendar bucket,
with the delta column, the moer column of the bucket row minus its carbon
intensity column, appended on the right.  jm and jc are the positions of
the moer and carbon intensity columns. -/
def get_aggregated_data (f : Freq) (ncols jm jc : Nat)
    (data : List (Timestamp × List Cell)) : List (Int × List Cell) :=
  (groupby_mean f ncols data).map (fun r =>
    (r.1, r.2 ++ [subCell (r.2.getD jm none) (r.2.getD jc none)]))

/- ----------------------------------------------------------------
   Example fixtures used by witnesses
   ---------------------------------------------------------------- -/

/-- Aligned frame with one column and two rows on the days of 2021-01-15
and 2021-03-15: February 2021 has no row. -/
def dataEx : List (Timestamp × List Cell) :=
  [(⟨18642, Tz.usPacific⟩, [some 1]), (⟨18701, Tz.usPacific⟩, [some 5])]

/-- Example input table: one column holding null, 7, null at three
increasing times. -/
def tEx : InTable := ⟨1, [(1, [none]), (2, [some 7]), (3, [none])]⟩

/-- An empty second input table with no columns of its own. -/
def tEmpty : InTable := ⟨0, []⟩

/-- Example connection environment. -/
def envEx : SnowflakeEnv :=
  { user := "u", password := "p", database := "DB", warehouse := "WH", account := "acct" }

/-- Example frame for the loader. -/
def dfEx : PDataFrame :=
  { indexName := "idx", index := ["0", "1"], columns := ["a", "b"],
    rows := [["1", "2"], ["3", "4"]] }

/-- Same data as dfEx under a different index. -/
def dfEx2 : PDataFrame :=
  { indexName := "other", index := ["9", "8"], columns := ["a", "b"],
    rows := [["1", "2"], ["3", "4"]] }

/- ----------------------------------------------------------------
   Theorems
   ---------------------------------------------------------------- -/

/-- Accumulator form of the overlay-trace loop. -/
theorem get_more_data_foldl (groups : List (Int × SubFrame)) (acc : List (List Cell)) :
    groups.foldl
        (fun fig g =>
          match selectColumn g.2 "moer_tons_per_mwh" with
          | .ok ys => fig ++ [ys]
          | .error _ => fig)
        acc
      = acc ++ groups.filterMap (fun g => (selectColumn g.2 "moer_tons_per_mwh").toOption) := by
  induction groups generalizing acc with
  | nil => simp
  | cons g gs ih =>
    cases h : selectColumn g.2 "moer_tons_per_mwh" <;>
      simp [h, ih, Except.toOption]

/-- C6: the warehouse commands issued by an upload are exactly, in order,
USE, optional REMOVE, PUT, USE, optional TRUNCATE, COPY INTO; the REMOVE
and TRUNCATE steps appear exactly when incremental is false, and the PUT
precedes the COPY. -/
theorem upload_command_order (env : SnowflakeEnv) (df : PDataFrame)
    (schema table : String) (incremental : Bool) (tempFile : String) :
    (to_table env df schema table incremental tempFile).1
      = [useSchemaCmd env.database schema]
        ++ (if incremental = false then [removeCmd (schema ++ "." ++ table)] else [])
        ++ [putCmd tempFile table]
        ++ [useSchemaCmd env.database schema]
        ++ (if incremental = false then [truncateCmd (schema ++ "." ++ table)] else [])
        ++ [copyIntoCmd (schema ++ "." ++ table) table] := by
  cases incremental <;> simp [to_table, to_staging, stage_to_table]

/-- C7: the fetched frame carries exactly the lower-cased metadata column
names and exactly the result rows in warehouse order. -/
theorem fetch_lowercase_columns_exact_rows (exec : String → QueryResult) (sql : String) :
    (fetch_sql_df exec sql).columns = (exec sql).description.map (fun c => c.1.toLower)
      ∧ (fetch_sql_df exec sql).rows = (exec sql).resultRows :=
  ⟨rfl, rfl⟩

/-- C8: the overlay builder adds one trace per bucket whose rate-column
selection succeeds and silently skips every bucket whose selection raises
KeyError, continuing with the remaining buckets; no KeyError escapes. -/
theorem overlay_skips_keyerror_buckets (groups : List (Int × SubFrame)) :
    get_more_data_traces groups
      = groups.filterMap (fun g => (selectColumn g.2 "moer_tons_per_mwh").toOption) :=
  get_more_data_foldl groups []

/-- C9: to_table always uses the target table name as the stage name, for
the staging write and the copy step alike, and a non-incremental upload
removes the staged content at the stage bearing the table name. -/
theorem stage_named_after_table (env : SnowflakeEnv) (df : PDataFrame)
    (schema table tempFile : String) :
    (∀ incremental, (to_table env df schema table incremental tempFile).1
        = (to_staging env df schema table incremental tempFile).1
          ++ stage_to_table env schema table table incremental)
      ∧ removeCmd (schema ++ "." ++ table) ∈ (to_table env df schema table false tempFile).1 := by
  constructor
  · intro incremental; rfl
  · simp [to_table, to_staging, stage_to_table]

/-- C10: the staged CSV is the header of column names followed by the data
rows only; the frame index contributes nothing, so two frames of equal
columns and rows stage identical content. -/
theorem staged_csv_without_index (env : SnowflakeEnv) (df : PDataFrame)
    (schema table : String) (incremental : Bool) (tempFile : String) :
    (to_table env df schema table incremental tempFile).2 = df.columns :: df.rows
      ∧ ∀ df2 : PDataFrame, df2.columns = df.columns → df2.rows = df.rows →
          (to_table env df2 schema table incremental tempFile).2
            = (to_table env df schema table incremental tempFile).2 := by
  refine ⟨rfl, ?_⟩
  intro df2 hc hr
  simp [to_table, to_staging, to_csv, hc, hr]

/-- Witness for C10 at concrete frames differing only in their index. -/
theorem staged_csv_without_index_witness :
    (to_table envEx dfEx "S" "T" false "tmp").2 = dfEx.columns :: dfEx.rows
      ∧ (to_table envEx dfEx2 "S" "T" false "tmp").2
          = (to_table envEx dfEx "S" "T" false "tmp").2 :=
  ⟨(staged_csv_without_index envEx dfEx "S" "T" false "tmp").1,
   (staged_csv_without_index envEx dfEx "S" "T" false "tmp").2 dfEx2 rfl rfl⟩

theorem fillRow_length (r s : List Cell) : (fillRow r s).length = min r.length s.length := by
  simp [fillRow]

theorem fillRow_getD : ∀ (r s : List Cell), r.length = s.length → ∀ j : Nat,
    (fillRow r s).getD j none
      = (match r.getD j none with
         | some v => some v
         | none => s.getD j none)
  | [], [], _, _ => by simp [fillRow]
  | [], _ :: _, h, _ => by simp at h
  | _ :: _, [], h, _ => by simp at h
  | c :: r, d :: s, _, 0 => by cases c <;> simp [fillRow]
  | c :: r, d :: s, h, j + 1 => by
      have hh : r.length = s.length := by simpa using h
      simpa [fillRow] using fillRow_getD r s hh j

theorem bfill_getD : ∀ (cs : List Cell) (i : Nat),
    (bfill cs).getD i none = firstSome (cs.drop i)
  | [], _ => by simp [bfill, firstSome]
  | c :: cs, 0 => by cases c <;> simp [bfill, firstSome]
  | _ :: cs, i + 1 => by simpa [bfill] using bfill_getD cs i

theorem colAt_cons (j : Nat) (r : List Cell) (rs : List (List Cell)) :
    colAt j (r :: rs) = r.getD j none :: colAt j rs := rfl

theorem bfillRows_length (rss : List (List Cell)) : (bfillRows rss).length = rss.length := by
  induction rss with
  | nil => rfl
  | cons r rs ih =>
    cases hb : bfillRows rs with
    | nil =>
      rw [hb] at ih
      simp at ih
      have hrs : rs = [] := List.length_eq_zero.1 ih.symm
      subst hrs
      simp [bfillRows]
    | cons r2 rest =>
      rw [hb] at ih
      simp at ih
      simp [bfillRows, hb]
      omega

theorem bfillRows_mem_length {k : Nat} : ∀ rss : List (List Cell),
    (∀ r ∈ rss, r.length = k) → ∀ r ∈ bfillRows rss, r.length = k := by
  intro rss
  induction rss with
  | nil => intro _ r hr; simp [bfillRows] at hr
  | cons r rs ih =>
    intro h c hc
    have hhead : r.length = k := h r (List.mem_cons_self r rs)
    have htail : ∀ x ∈ rs, x.length = k := fun x hx => h x (List.mem_cons_of_mem r hx)
    cases hb : bfillRows rs with
    | nil =>
      simp only [bfillRows, hb] at hc
      simp at hc
      simpa [hc] using hhead
    | cons r2 rest =>
      simp only [bfillRows, hb] at hc
      have hr2 : r2.length = k := ih htail r2 (by rw [hb]; exact List.mem_cons_self r2 rest)
      rcases List.mem_cons.1 hc with hc1 | hc2
      · rw [hc1, fillRow_length, hhead, hr2]
        omega
      · exact ih htail c (by rw [hb]; exact hc2)

theorem bfillRows_head {k : Nat} : ∀ (rss : List (List Cell)) (r2 : List Cell)
    (rest : List (List Cell)),
    (∀ r ∈ rss, r.length = k) → bfillRows rss = r2 :: rest →
    ∀ j : Nat, r2.getD j none = firstSome (colAt j rss)
  | [], r2, rest, _, hb, _ => by simp [bfillRows] at hb
  | r :: rs, r2, rest, h, hb, j => by
    have hhead : r.length = k := h r (List.mem_cons_self r rs)
    have htail : ∀ x ∈ rs, x.length = k := fun x hx => h x (List.mem_cons_of_mem r hx)
    cases hb2 : bfillRows rs with
    | nil =>
      have hrs : rs = [] := by
        have hl := bfillRows_length rs
        rw [hb2] at hl
        simpa using List.length_eq_zero.1 hl.symm
      subst hrs
      simp only [bfillRows] at hb
      injection hb with hbr hbrest
      subst hbr
      rw [colAt_cons]
      cases hc : r.getD j none <;> simp [colAt, firstSome, hc]
    | cons r3 rest3 =>
      have hr3 : r3.length = k :=
        bfillRows_mem_length rs htail r3 (by rw [hb2]; exact List.mem_cons_self r3 rest3)
      have hih : r3.getD j none = firstSome (colAt j rs) :=
        bfillRows_head rs r3 rest3 htail hb2 j
      simp only [bfillRows, hb2] at hb
      injection hb with hbr hbrest
      subst hbr
      rw [fillRow_getD r r3 (by rw [hhead, hr3]) j, colAt_cons]
      cases hc : r.getD j none with
      | some v => simp [firstSome]
      | none => simpa [firstSome] using hih

theorem colAt_bfillRows {k : Nat} : ∀ rss : List (List Cell),
    (∀ r ∈ rss, r.length = k) → ∀ j : Nat,
    colAt j (bfillRows rss) = bfill (colAt j rss)
  | [], _, _ => rfl
  | r :: rs, h, j => by
    have hhead : r.length = k := h r (List.mem_cons_self r rs)
    have htail : ∀ x ∈ rs, x.length = k := fun x hx => h x (List.mem_cons_of_mem r hx)
    cases hb : bfillRows rs with
    | nil =>
      have hrs : rs = [] := by
        have hl := bfillRows_length rs
        rw [hb] at hl
        simpa using List.length_eq_zero.1 hl.symm
      subst hrs
      simp only [bfillRows]
      rw [colAt_cons j r []]
      cases hc : r.getD j none <;> simp [colAt, bfill, firstSome, hc]
    | cons r3 rest3 =>
      have hr3 : r3.length = k :=
        bfillRows_mem_length rs htail r3 (by rw [hb]; exact List.mem_cons_self r3 rest3)
      have hih : colAt j (bfillRows rs) = bfill (colAt j rs) := colAt_bfillRows rs htail j
      rw [hb] at hih
      simp only [bfillRows, hb]
      rw [colAt_cons j (fillRow r r3) (r3 :: rest3), colAt_cons j r rs, hih]
      simp only [bfill]
      congr 1
      rw [fillRow_getD r r3 (by rw [hhead, hr3]) j,
        bfillRows_head rs r3 rest3 htail hb j]

theorem alignedSorted_cells_length (t1 t2 : InTable) (h1 : t1.wf) (h2 : t2.wf) :
    ∀ c ∈ (alignedSorted t1 t2).map Prod.snd, c.length = t1.ncols + t2.ncols := by
  intro c hc
  simp [alignedSorted, tz_convert_pacific, to_datetime_utc, List.mem_map] at hc
  obtain ⟨r, hr, rfl⟩ := hc
  have hr2 : r ∈ concatTables t1 t2 :=
    ((List.perm_insertionSort dtLE (concatTables t1 t2)).mem_iff).1 hr
  simp [concatTables, List.mem_append, List.mem_map] at hr2
  rcases hr2 with ⟨a, b, hmem, heq⟩ | ⟨a, b, hmem, heq⟩
  · rw [← heq]
    simp [h1 _ hmem]
  · rw [← heq]
    simp [h2 _ hmem]

/-- C1: the backward-fill pass of the Aligner gives every cell of the
output the first non-null value found in its own column at its position or
later in sorted time order, so a null with no later value stays null; and
on the concrete column null, 7, null the fill yields 7, 7, null. -/
theorem backward_fill_nearest_subsequent (t1 t2 : InTable)
    (h1 : t1.wf) (h2 : t2.wf) :
    (∀ (j i : Nat), (colAt j ((aggregate_data t1 t2).map Prod.snd)).getD i none
        = firstSome ((colAt j ((alignedSorted t1 t2).map Prod.snd)).drop i))
      ∧ (aggregate_data tEx tEmpty).map Prod.snd = [[some 7], [some 7], [none]] := by
  constructor
  · intro j i
    have hlen : (bfillRows ((alignedSorted t1 t2).map Prod.snd)).length
        ≤ ((alignedSorted t1 t2).map Prod.fst).length := by
      simp [bfillRows_length]
    have hsnd : (aggregate_data t1 t2).map Prod.snd
        = bfillRows ((alignedSorted t1 t2).map Prod.snd) :=
      List.map_snd_zip ((alignedSorted t1 t2).map Prod.fst)
        (bfillRows ((alignedSorted t1 t2).map Prod.snd)) hlen
    rw [hsnd, colAt_bfillRows ((alignedSorted t1 t2).map Prod.snd)
      (alignedSorted_cells_length t1 t2 h1 h2) j]
    exact bfill_getD _ i
  · decide

/-- Witness for C1 at the concrete null, 7, null table. -/
theorem backward_fill_nearest_subsequent_witness :
    (colAt 0 ((aggregate_data tEx tEmpty).map Prod.snd)).getD 0 none
      = firstSome ((colAt 0 ((alignedSorted tEx tEmpty).map Prod.snd)).drop 0) :=
  (backward_fill_nearest_subsequent tEx tEmpty (by decide) (by decide)).1 0 0

/-- C4: the datetime index of every aligned output is monotonically
non-decreasing. -/
theorem aligned_index_monotone (t1 t2 : InTable) :
    List.Sorted (fun a b : Timestamp => a.instant ≤ b.instant)
      ((aggregate_data t1 t2).map Prod.fst) := by
  have hlen : ((alignedSorted t1 t2).map Prod.fst).length
      ≤ (bfillRows ((alignedSorted t1 t2).map Prod.snd)).length := by
    simp [bfillRows_length]
  have hfst : (aggregate_data t1 t2).map Prod.fst = (alignedSorted t1 t2).map Prod.fst :=
    List.map_fst_zip ((alignedSorted t1 t2).map Prod.fst)
      (bfillRows ((alignedSorted t1 t2).map Prod.snd)) hlen
  rw [hfst]
  have hcomp : (alignedSorted t1 t2).map Prod.fst
      = (sort_values (concatTables t1 t2)).map
          (fun r => (⟨r.datetime, Tz.usPacific⟩ : Timestamp)) := by
    simp [alignedSorted, tz_convert_pacific, to_datetime_utc, List.map_map]
  rw [hcomp]
  exact List.Pairwise.map _ (fun a b hab => hab)
    (List.sorted_insertionSort dtLE (concatTables t1 t2))

/-- C5: every index timestamp of the aligned output carries the US Pacific
zone tag, the result of interpreting the raw index as UTC and converting
it. -/
theorem aligned_index_all_pacific (t1 t2 : InTable) :
    ∀ p ∈ aggregate_data t1 t2, p.1.tz = Tz.usPacific := by
  intro p hp
  obtain ⟨a, b⟩ := p
  have ha : a ∈ (alignedSorted t1 t2).map Prod.fst := (List.of_mem_zip hp).1
  simp [alignedSorted, tz_convert_pacific, to_datetime_utc, List.mem_map] at ha
  obtain ⟨r, _, rfl⟩ := ha
  rfl

/-- Witness for C5 at the concrete null, 7, null table. -/
theorem aligned_index_all_pacific_witness :
    ((⟨1, Tz.usPacific⟩, [some 7]) : Timestamp × List Cell).1.tz = Tz.usPacific :=
  aligned_index_all_pacific tEx tEmpty (⟨1, Tz.usPacific⟩, [some 7]) (by decide)

theorem mem_binRange (lo hi b : Int) : b ∈ binRange lo hi ↔ lo ≤ b ∧ b ≤ hi := by
  unfold binRange
  constructor
  · intro hb
    obtain ⟨i, hi2, hieq⟩ := List.mem_map.1 hb
    have hilt : i < (hi - lo + 1).toNat := List.mem_range.1 hi2
    omega
  · intro hb
    exact List.mem_map.2 ⟨(b - lo).toNat, List.mem_range.2 (by omega), by omega⟩

theorem groupby_mean_eq_of_minmax (f : Freq) (ncols : Nat)
    (data : List (Timestamp × List Cell)) (tmin tmax : Int)
    (hmin : (data.map (fun r => r.1.instant)).min? = some tmin)
    (hmax : (data.map (fun r => r.1.instant)).max? = some tmax) :
    groupby_mean f ncols data
      = (binRange (bucketOf f tmin) (bucketOf f tmax)).map (fun b =>
          (b, (List.range ncols).map (fun j =>
                meanCell (colAt j ((bucketRows f data b).map Prod.snd))))) := by
  unfold groupby_mean
  rw [hmin, hmax]

theorem getD_range_map {α : Type} (g : Nat → α) (d : α) (n j : Nat) (h : j < n) :
    ((List.range n).map g).getD j d = g j := by
  rw [List.getD_eq_getElem?_getD, List.getElem?_map, List.getElem?_range h]
  rfl

theorem replicate_none_getD (n i : Nat) :
    (List.replicate n (none : Cell)).getD i none = none := by
  rw [List.getD_eq_getElem?_getD, List.getElem?_replicate]
  split <;> rfl

/-- C2 counterexample: on the concrete two-row frame, with rows in January
and March 2021 only, the February 2021 month bucket has zero contributing
rows and yet a row is emitted for it, holding null mean and null delta. -/
theorem empty_bucket_emitted_cx :
    bucketRows Freq.month dataEx 24253 = []
      ∧ (24253, [none, none]) ∈ get_aggregated_data Freq.month 1 0 0 dataEx := by
  refine ⟨by decide, ?_⟩
  have hmin : (dataEx.map (fun r => r.1.instant)).min? = some 18642 := by decide
  have hmax : (dataEx.map (fun r => r.1.instant)).max? = some 18701 := by decide
  rw [get_aggregated_data, groupby_mean_eq_of_minmax Freq.month 1 dataEx 18642 18701 hmin hmax]
  exact List.mem_map.2 ⟨(24253, [none]), List.mem_map.2 ⟨24253, by decide, rfl⟩, rfl⟩

/-- C2 amended: an empty calendar bucket lying between the bucket of the
earliest timestamp and the bucket of the latest is emitted as a row whose
cells, delta included, are all null; exactly the buckets inside that span
appear in the output. -/
theorem empty_bucket_null_row (f : Freq) (ncols jm jc : Nat)
    (data : List (Timestamp × List Cell)) (tmin tmax b : Int)
    (hmin : (data.map (fun r => r.1.instant)).min? = some tmin)
    (hmax : (data.map (fun r => r.1.instant)).max? = some tmax)
    (hlo : bucketOf f tmin ≤ b) (hhi : b ≤ bucketOf f tmax)
    (hempty : bucketRows f data b = []) :
    (b, List.replicate (ncols + 1) (none : Cell)) ∈ get_aggregated_data f ncols jm jc data
      ∧ ∀ b2 : Int, b2 ∈ (get_aggregated_data f ncols jm jc data).map Prod.fst
          ↔ (bucketOf f tmin ≤ b2 ∧ b2 ≤ bucketOf f tmax) := by
  have hgm := groupby_mean_eq_of_minmax f ncols data tmin tmax hmin hmax
  constructor
  · rw [get_aggregated_data, hgm]
    refine List.mem_map.2 ⟨(b, List.replicate ncols none), ?_, ?_⟩
    · refine List.mem_map.2 ⟨b, (mem_binRange _ _ _).2 ⟨hlo, hhi⟩, ?_⟩
      simp [hempty, colAt, meanCell, List.map_const']
    · simp [replicate_none_getD, subCell, List.replicate_succ']
  · intro b2
    rw [get_aggregated_data, hgm, List.map_map, List.map_map]
    simp only [List.mem_map, Function.comp]
    constructor
    · rintro ⟨x, hx, rfl⟩
      exact (mem_binRange _ _ _).1 hx
    · intro hb2
      exact ⟨b2, (mem_binRange _ _ _).2 hb2, rfl⟩

/-- Witness for the amended C2 at the concrete two-row frame: the empty
February 2021 bucket appears with an all-null row. -/
theorem empty_bucket_null_row_witness :
    (24253, List.replicate 2 (none : Cell)) ∈ get_aggregated_data Freq.month 1 0 0 dataEx :=
  (empty_bucket_null_row Freq.month 1 0 0 dataEx 18642 18701 24253 (by decide) (by decide)
    (by decide) (by decide) (by decide)).1

/-- C3: every emitted bucket row holds the per-bucket arithmetic mean of
each column over that bucket only, nulls skipped, and ends with the delta
cell, the bucket mean of the moer column minus the bucket mean of the
carbon intensity column; the mean of the bucket values 2, 4, 6 is 4. -/
theorem bucket_mean_and_delta (f : Freq) (ncols jm jc : Nat)
    (data : List (Timestamp × List Cell)) (b : Int) (row : List Cell)
    (hjm : jm < ncols) (hjc : jc < ncols)
    (hmem : (b, row) ∈ get_aggregated_data f ncols jm jc data) :
    (∀ j, j < ncols → row.getD j none
        = meanCell (colAt j ((bucketRows f data b).map Prod.snd)))
      ∧ row.getD ncols none
          = subCell (meanCell (colAt jm ((bucketRows f data b).map Prod.snd)))
              (meanCell (colAt jc ((bucketRows f data b).map Prod.snd)))
      ∧ meanCell [some 2, some 4, some 6] = some 4 := by
  have hdata : data ≠ [] := by
    rintro rfl
    simp [get_aggregated_data, groupby_mean] at hmem
  obtain ⟨tmin, hmin⟩ : ∃ t, (data.map (fun r => r.1.instant)).min? = some t := by
    cases hm : (data.map (fun r => r.1.instant)).min? with
    | none =>
      rw [List.min?_eq_none_iff, List.map_eq_nil_iff] at hm
      exact absurd hm hdata
    | some t => exact ⟨t, rfl⟩
  obtain ⟨tmax, hmax⟩ : ∃ t, (data.map (fun r => r.1.instant)).max? = some t := by
    cases hm : (data.map (fun r => r.1.instant)).max? with
    | none =>
      rw [List.max?_eq_none_iff, List.map_eq_nil_iff] at hm
      exact absurd hm hdata
    | some t => exact ⟨t, rfl⟩
  rw [get_aggregated_data, groupby_mean_eq_of_minmax f ncols data tmin tmax hmin hmax,
    List.map_map] at hmem
  simp only [List.mem_map, Function.comp] at hmem
  obtain ⟨b0, _, heq⟩ := hmem
  have hb0 : b0 = b := congrArg Prod.fst heq
  subst hb0
  have hrow : row
      = (List.range ncols).map (fun j =>
          meanCell (colAt j ((bucketRows f data b0).map Prod.snd)))
        ++ [subCell
              (((List.range ncols).map (fun j =>
                meanCell (colAt j ((bucketRows f data b0).map Prod.snd)))).getD jm none)
              (((List.range ncols).map (fun j =>
                meanCell (colAt j ((bucketRows f data b0).map Prod.snd)))).getD jc none)] :=
    (congrArg Prod.snd heq).symm
  refine ⟨?_, ?_, ?_⟩
  · intro j hj
    rw [hrow, List.getD_append _ _ _ _ (by simpa using hj), getD_range_map _ _ _ _ hj]
  · rw [hrow, List.getD_append_right _ _ _ _ (by simp)]
    simp only [List.length_map, List.length_range, Nat.sub_self]
    rw [List.getD_cons_zero, getD_range_map _ _ _ _ hjm, getD_range_map _ _ _ _ hjc]
  · show meanCell [some 2, some 4, some 6] = some 4
    rw [show meanCell [some 2, some 4, some 6]
          = some ((([2, 4, 6] : List ℚ).sum) / ((3 : ℕ) : ℚ)) from rfl]
    refine congrArg some ?_
    norm_num [List.sum_cons, List.sum_nil]

/-- Witness for C3 at the empty February 2021 bucket of the concrete
frame: the bucket row cell equals the null mean of the empty bucket. -/
theorem bucket_mean_and_delta_witness :
    ([none, none] : List Cell).getD 0 none
      = meanCell (colAt 0 ((bucketRows Freq.month dataEx 24253).map Prod.snd)) := by
  have hmin : (dataEx.map (fun r => r.1.instant)).min? = some 18642 := by decide
  have hmax : (dataEx.map (fun r => r.1.instant)).max? = some 18701 := by decide
  have hmem : ((24253 : Int), ([none, none] : List Cell))
      ∈ get_aggregated_data Freq.month 1 0 0 dataEx := by
    rw [get_aggregated_data,
      groupby_mean_eq_of_minmax Freq.month 1 dataEx 18642 18701 hmin hmax]
    exact List.mem_map.2 ⟨(24253, [none]), List.mem_map.2 ⟨24253, by decide, rfl⟩, rfl⟩
  exact (bucket_mean_and_delta Freq.month 1 0 0 dataEx 24253 [none, none]
    (by decide) (by decide) hmem).1 0 (by decide)

end EmissionsApp
